import Mathlib

/-!
# Verification of the StocksMarket trading core

Shallow embedding of the trading core of the `practica-net-remoting`
repository: the price–time matching engine
(`back/StocksMarket/market-service/matching-engine.js`), the portfolio
store (`PortfolioManager`), the market-service order entry and
settlement path (`placeOrder` / `processExecution`), and the analytics
queries (`back/StocksMarket/analytics-service/analytics-engine.js`).

Modelling conventions:
* JS numbers holding prices, balances and monetary amounts are modelled
  as `ℚ` (the source only ever adds, multiplies, divides and compares
  them; all inputs in the claims are exact decimals).
* Share quantities are modelled as `ℤ` (the proto fields are integers).
* Timestamps (`Date.now()`) are modelled as `ℕ` parameters threaded
  through the functions.
* UUIDs (`uuidv4()`) are opaque identifiers; we model identifier fields
  as `ℕ` supplied by the caller.  The random `execution_id` is not
  observable by any claim and is not modelled.
* SQLite rows live in Lean lists / keyed functions; the `UNIQUE`
  constraints of the schema (`database.js`) justify the keyed-function
  representation of the `investors` and `portfolio` tables.
-/

namespace StocksMarket

/-- Order side; the proto encodes `0 = BUY`, `1 = SELL` and the JS code
treats `order_type === 'BUY' || order_type === 0` as the buy side. -/
inductive Side where
  | BUY
  | SELL
deriving DecidableEq

/-- Order lifecycle states used by the matching engine and market service. -/
inductive OrderStatus where
  | PENDING
  | PARTIALLY_FILLED
  | FILLED
  | CANCELED
  | REJECTED
deriving DecidableEq

/-- An order as stored by the market service (`placeOrder`, lines 82–93 of
the market server) and kept in the matching engine's books. -/
structure Order where
  order_id : Nat
  investor_id : Nat
  stock_symbol : String
  order_type : Side
  quantity : Int
  price : ℚ
  filled_quantity : Int
  status : OrderStatus
  created_at : Nat
deriving DecidableEq

/-- An execution record as built in `matchOrders`
(matching-engine.js lines 113–124).  The random `execution_id` is omitted. -/
structure Execution where
  buy_order_id : Nat
  sell_order_id : Nat
  stock_symbol : String
  quantity : Int
  price : ℚ
  buyer_id : Nat
  seller_id : Nat
  timestamp : Nat
deriving DecidableEq

/-- `canMatch` condition of `matchOrders` (matching-engine.js line 89):
market orders (price 0) always match, otherwise the bid price must be at
least the ask price. -/
def canMatch (bid ask : Order) : Bool :=
  decide (bid.price = 0) || decide (ask.price = 0) || decide (ask.price ≤ bid.price)

/-- Execution price rule of `matchOrders` (matching-engine.js lines 97–105). -/
def execPrice (bid ask : Order) : ℚ :=
  if bid.price = 0 then ask.price
  else if ask.price = 0 then bid.price
  else ask.price

/-- Replace the registry copy of an order (`this.orders[id]`); in JS the
book and the registry alias the same object, so every in-place mutation of
a book order is visible in the registry. -/
def updateOrderIn (reg : List Order) (o : Order) : List Order :=
  reg.map (fun x => if x.order_id = o.order_id then o else x)

/-- Result of one `matchOrders` run. -/
structure MatchResult where
  executions : List Execution
  reg : List Order
  bids : List Order
  asks : List Order
  completed : Bool
deriving DecidableEq

/-- Execution quantity rule of `matchOrders` (matching-engine.js lines
108–111): minimum of the two remaining quantities. -/
def execQty (bid ask : Order) : Int :=
  min (bid.quantity - bid.filled_quantity) (ask.quantity - ask.filled_quantity)

/-- Fill bookkeeping of one loop iteration for one order (matching-engine.js
lines 129–145): add the executed quantity to the filled counter and mark
the order `FILLED` when the counter reached its quantity, else
`PARTIALLY_FILLED`. -/
def bumpOrder (o : Order) (q : Int) : Order :=
  { o with
    filled_quantity := o.filled_quantity + q
    status := if o.quantity ≤ o.filled_quantity + q
              then OrderStatus.FILLED else OrderStatus.PARTIALLY_FILLED }

/-- The `while` loop of `matchOrders` (matching-engine.js lines 82–178),
made total with explicit fuel: `completed = false` marks fuel exhaustion
before the loop condition turned false.  Each iteration matches the top
bid against the top ask, executes `execQty` shares at `execPrice`, and
pops every order whose filled counter reached its quantity. -/
def matchLoop (now : Nat) (sym : String) :
    Nat → List Order → List Order → List Order → MatchResult
  | fuel, reg, bid :: restBids, ask :: restAsks =>
    if canMatch bid ask then
      match fuel with
      | 0 => ⟨[], reg, bid :: restBids, ask :: restAsks, false⟩
      | fuel' + 1 =>
        let q := execQty bid ask
        let exec : Execution :=
          { buy_order_id := bid.order_id
            sell_order_id := ask.order_id
            stock_symbol := sym
            quantity := q
            price := execPrice bid ask
            buyer_id := bid.investor_id
            seller_id := ask.investor_id
            timestamp := now }
        let reg' := updateOrderIn (updateOrderIn reg (bumpOrder bid q)) (bumpOrder ask q)
        let bids' := if bid.quantity ≤ bid.filled_quantity + q
                     then restBids else bumpOrder bid q :: restBids
        let asks' := if ask.quantity ≤ ask.filled_quantity + q
                     then restAsks else bumpOrder ask q :: restAsks
        let r := matchLoop now sym fuel' reg' bids' asks'
        ⟨exec :: r.executions, r.reg, r.bids, r.asks, r.completed⟩
    else ⟨[], reg, bid :: restBids, ask :: restAsks, true⟩
  | _, reg, [], asks => ⟨[], reg, [], asks, true⟩
  | _, reg, bids, [] => ⟨[], reg, bids, [], true⟩

/-- Stable ordered insertion: place `x` after every element `y` with
`le y x` and before the first element for which that fails. -/
def insertBy {α : Type} (le : α → α → Bool) (x : α) : List α → List α
  | [] => [x]
  | y :: ys => if le y x then y :: insertBy le x ys else x :: y :: ys

/-- Stable insertion sort built on `insertBy`: elements are inserted in
their original order and each lands after the elements it ties with, so
equal keys keep their relative order. -/
def sortBy {α : Type} (le : α → α → Bool) (l : List α) : List α :=
  l.foldl (fun acc x => insertBy le x acc) []

/-- Comparator for the bids side (matching-engine.js line 39):
`(a, b) => b.price - a.price`, i.e. keep `a` before `b` iff
`b.price ≤ a.price`. -/
def bidKeep (a b : Order) : Bool := decide (b.price ≤ a.price)

/-- Comparator for the asks side (matching-engine.js line 43):
`(a, b) => a.price - b.price`, i.e. keep `a` before `b` iff
`a.price ≤ b.price`. -/
def askKeep (a b : Order) : Bool := decide (a.price ≤ b.price)

/-- One order book (per symbol): bids and asks (matching-engine.js lines 25–30). -/
structure MEBook where
  bids : List Order
  asks : List Order
deriving DecidableEq

/-- The empty book a symbol starts with. -/
def emptyBook : MEBook := ⟨[], []⟩

/-- Book insertion step of `addOrder` (matching-engine.js lines 36–44):
`push` the order and re-sort the side.  `Array.prototype.sort` is stable
(ES2019), and the side is always already sorted when `addOrder` runs, so
pushing and re-sorting equals stable ordered insertion of the new order
after every order it ties with. -/
def insertIntoBook (o : Order) (bk : MEBook) : MEBook :=
  match o.order_type with
  | Side.BUY => { bk with bids := insertBy bidKeep o bk.bids }
  | Side.SELL => { bk with asks := insertBy askKeep o bk.asks }

/-- Result of `addOrder`: the executions of the triggered `matchOrders`
run, the updated order registry and book, and the loop-completion flag. -/
structure AddResult where
  executions : List Execution
  reg : List Order
  book : MEBook
  completed : Bool
deriving DecidableEq

/-- `addOrder` (matching-engine.js lines 21–68): store the order in the
registry, insert it into the proper side, then run `matchOrders`.  The
fuel given to the loop is the number of live orders, which `matchLoop`
never exhausts (each iteration pops at least one order). -/
def addOrder (now : Nat) (o : Order) (reg : List Order) (bk : MEBook) : AddResult :=
  let reg' := o :: reg
  let bk' := insertIntoBook o bk
  let r := matchLoop now o.stock_symbol (bk'.bids.length + bk'.asks.length)
             reg' bk'.bids bk'.asks
  ⟨r.executions, r.reg, ⟨r.bids, r.asks⟩, r.completed⟩

/-! ## Portfolio store (`PortfolioManager`, unnamed part_008) -/

/-- A row of the `investors` table (keyed by its opaque `investor_id`). -/
structure Investor where
  name : String
  email : String
  balance : ℚ
  created_at : Nat
deriving DecidableEq

/-- The `investors` table: `investor_id TEXT PRIMARY KEY`, modelled as a
keyed lookup function. -/
def InvestorTable := Nat → Option Investor

/-- A row of the `portfolio` table without its key; the schema declares
`UNIQUE(investor_id, stock_symbol)`, so the table is a keyed function. -/
structure Holding where
  quantity : Int
  average_price : ℚ
deriving DecidableEq

/-- The `portfolio` table keyed by `(investor_id, stock_symbol)`. -/
def PortfolioTable := Nat × String → Option Holding

/-- Write one keyed row of the portfolio table (`none` deletes it). -/
def portfolioSet (port : PortfolioTable) (key : Nat × String)
    (h : Option Holding) : PortfolioTable :=
  fun k => if k = key then h else port k

/-- A row of the `transactions` table. -/
structure Tx where
  transaction_id : Nat
  investor_id : Nat
  stock_symbol : String
  tx_type : Side
  quantity : Int
  price : ℚ
  total_amount : ℚ
  timestamp : Nat
deriving DecidableEq

/-- Result shape of `updateBalance`. -/
structure BalanceResult where
  success : Bool
  new_balance : ℚ
  message : String
deriving DecidableEq

/-- `PortfolioManager.updateBalance` (part_008 lines 77–116): reject a
change that would drive the balance negative, otherwise persist the sum.
A missing investor makes `getInvestor` throw; the catch handler returns
failure with `new_balance 0`. -/
def updateBalance (investors : InvestorTable) (id : Nat) (amount : ℚ) :
    BalanceResult × InvestorTable :=
  match investors id with
  | none => (⟨false, 0, "Investor not found"⟩, investors)
  | some inv =>
    let newBalance := inv.balance + amount
    if newBalance < 0 then
      (⟨false, inv.balance, "Insufficient balance"⟩, investors)
    else
      (⟨true, newBalance, "Balance updated successfully"⟩,
       fun k => if k = id then some { inv with balance := newBalance } else investors k)

/-- Result shape of `updatePortfolio`. -/
structure UpdateResult where
  success : Bool
  message : String
deriving DecidableEq

/-- `PortfolioManager.updatePortfolio` (part_008 lines 164–250).
Positive `quantityChange` buys: upsert the holding, averaging the buy
price by quantity; non-positive sells: decrement, failing on a missing
or too-small holding and deleting the row when the quantity reaches 0.
Every successful path appends one transaction row. -/
def updatePortfolio (port : PortfolioTable) (txs : List Tx)
    (investor_id : Nat) (stock_symbol : String)
    (quantityChange : Int) (price : ℚ) (transaction_id now : Nat) :
    UpdateResult × PortfolioTable × List Tx :=
  let key := (investor_id, stock_symbol)
  let newTx : Tx :=
    { transaction_id := transaction_id
      investor_id := investor_id
      stock_symbol := stock_symbol
      tx_type := if 0 < quantityChange then Side.BUY else Side.SELL
      quantity := |quantityChange|
      price := price
      total_amount := ((|quantityChange| : Int) : ℚ) * price
      timestamp := now }
  if 0 < quantityChange then
    match port key with
    | some h =>
      let newQuantity := h.quantity + quantityChange
      let newAveragePrice :=
        ((h.quantity : ℚ) * h.average_price + (quantityChange : ℚ) * price) / (newQuantity : ℚ)
      (⟨true, "Portfolio updated successfully"⟩,
       portfolioSet port key (some ⟨newQuantity, newAveragePrice⟩), txs ++ [newTx])
    | none =>
      (⟨true, "Portfolio updated successfully"⟩,
       portfolioSet port key (some ⟨quantityChange, price⟩), txs ++ [newTx])
  else
    match port key with
    | none => (⟨false, "Stock not in portfolio"⟩, port, txs)
    | some h =>
      let newQuantity := h.quantity + quantityChange
      if newQuantity < 0 then
        (⟨false, "Insufficient shares"⟩, port, txs)
      else if newQuantity = 0 then
        (⟨true, "Portfolio updated successfully"⟩,
         portfolioSet port key none, txs ++ [newTx])
      else
        (⟨true, "Portfolio updated successfully"⟩,
         portfolioSet port key (some { h with quantity := newQuantity }), txs ++ [newTx])

/-- Result shape of `validateOrder`. -/
structure ValidationResult where
  valid : Bool
  message : String
  required_balance : ℚ
  available_shares : Int
deriving DecidableEq

/-- `PortfolioManager.validateOrder` (part_008 lines 299–355): a BUY needs
`balance ≥ quantity · price`, a SELL needs a holding of at least
`quantity` shares.  A missing investor throws and the catch handler
returns `valid = false`. -/
def validateOrder (investors : InvestorTable) (port : PortfolioTable)
    (investor_id : Nat) (stock_symbol : String) (order_type : Side)
    (quantity : Int) (price : ℚ) : ValidationResult :=
  match investors investor_id with
  | none => ⟨false, "Investor not found", 0, 0⟩
  | some inv =>
    match order_type with
    | Side.BUY =>
      let requiredBalance := (quantity : ℚ) * price
      if inv.balance < requiredBalance then
        ⟨false, "Insufficient balance", requiredBalance, 0⟩
      else
        ⟨true, "Order valid", requiredBalance, 0⟩
    | Side.SELL =>
      let availableShares :=
        match port (investor_id, stock_symbol) with
        | some h => h.quantity
        | none => 0
      if availableShares < quantity then
        ⟨false, "Insufficient shares", 0, availableShares⟩
      else
        ⟨true, "Order valid", 0, availableShares⟩

/-! ## Market service (unnamed part_009) -/

/-- Event kinds emitted by the matching engine. -/
inductive EventType where
  | ORDER_PLACED
  | ORDER_EXECUTED
  | ORDER_CANCELED
deriving DecidableEq

/-- A market event as built by `emitEvent` calls in the matching engine. -/
structure MarketEvent where
  event_type : EventType
  order_id : Nat
  stock_symbol : String
  order_type : Side
  quantity : Int
  price : ℚ
  investor_id : Nat
  timestamp : Nat
deriving DecidableEq

/-- The `ORDER_PLACED` event of `addOrder` (matching-engine.js lines 55–64). -/
def placedEvent (now : Nat) (o : Order) : MarketEvent :=
  ⟨EventType.ORDER_PLACED, o.order_id, o.stock_symbol, o.order_type,
   o.quantity, o.price, o.investor_id, now⟩

/-- The two `ORDER_EXECUTED` events emitted per loop iteration of
`matchOrders` (matching-engine.js lines 157–177); every field is read off
the execution record, buyer side first. -/
def executionEvents (e : Execution) : List MarketEvent :=
  [⟨EventType.ORDER_EXECUTED, e.buy_order_id, e.stock_symbol, Side.BUY,
    e.quantity, e.price, e.buyer_id, e.timestamp⟩,
   ⟨EventType.ORDER_EXECUTED, e.sell_order_id, e.stock_symbol, Side.SELL,
    e.quantity, e.price, e.seller_id, e.timestamp⟩]

/-- Market state of the market service. -/
inductive MarketState where
  | OPEN
  | CLOSED
  | PAUSED
deriving DecidableEq

/-- An `UpdatePrice` RPC issued to the price service.  `trade_price = none`
models the asynchronous branch that first fetches the current market
price with `GetPrice` and forwards it (market-order placement pressure,
part_009 lines 116–129); the price service itself is outside this
embedding, so the outbound requests are recorded instead. -/
structure PriceRequest where
  stock_symbol : String
  trade_price : Option ℚ
  trade_volume : Int
  is_buy : Bool
deriving DecidableEq

/-- A row of the `analytics_trades` table (`recordTrade`). -/
structure ATrade where
  stock_symbol : String
  order_type : Side
  quantity : Int
  price : ℚ
  investor_id : Nat
  timestamp : Nat
deriving DecidableEq

/-- Aggressor rule of `processExecution` (part_009 lines 191–207): a
market buy against a limit sell is buying pressure, a market sell against
a limit buy is selling pressure, otherwise the more recently created
order decides (ties go to the seller). -/
def isBuyPressure (buyOrder sellOrder : Order) : Bool :=
  if buyOrder.price = 0 ∧ sellOrder.price ≠ 0 then true
  else if sellOrder.price = 0 ∧ buyOrder.price ≠ 0 then false
  else if sellOrder.created_at < buyOrder.created_at then true
  else false

/-- State owned (directly or through the shared store) by the market
service path exercised by `placeOrder`. -/
structure SrvState where
  marketState : MarketState
  investors : InvestorTable
  portfolio : PortfolioTable
  transactions : List Tx
  ordersTable : List Order
  trades : List ATrade
  reg : List Order
  books : String → MEBook

/-- `processExecution` (part_009 lines 178–289): derive the price-pressure
direction from the two matched orders (defaulting to buying pressure when
either lookup fails), issue one `UpdatePrice` request, apply the buyer
and seller portfolio and balance mutations, and record the trade in
analytics from both perspectives. -/
def processExecution (now txBuy txSell : Nat) (e : Execution) (s : SrvState) :
    SrvState × PriceRequest :=
  let buyOrder := s.reg.find? (fun o => o.order_id = e.buy_order_id)
  let sellOrder := s.reg.find? (fun o => o.order_id = e.sell_order_id)
  let isBuyP :=
    match buyOrder, sellOrder with
    | some bo, some so => isBuyPressure bo so
    | _, _ => true
  let priceReq : PriceRequest := ⟨e.stock_symbol, some e.price, e.quantity, isBuyP⟩
  let r1 := updatePortfolio s.portfolio s.transactions e.buyer_id e.stock_symbol
              e.quantity e.price txBuy now
  let r2 := updateBalance s.investors e.buyer_id (-((e.quantity : ℚ) * e.price))
  let r3 := updatePortfolio r1.2.1 r1.2.2 e.seller_id e.stock_symbol
              (-e.quantity) e.price txSell now
  let r4 := updateBalance r2.2 e.seller_id ((e.quantity : ℚ) * e.price)
  let trades' := s.trades ++
    [⟨e.stock_symbol, Side.BUY, e.quantity, e.price, e.buyer_id, now⟩,
     ⟨e.stock_symbol, Side.SELL, e.quantity, e.price, e.seller_id, now⟩]
  ({ s with
      investors := r4.2
      portfolio := r3.2.1
      transactions := r3.2.2
      trades := trades' }, priceReq)

/-- Response shape of `PlaceOrder`; the empty-string `order_id` of the
rejection paths is modelled as `none`. -/
structure PlaceOrderResponse where
  order_id : Option Nat
  success : Bool
  message : String
  status : OrderStatus
deriving DecidableEq

/-- The request fields of `PlaceOrder`. -/
structure OrderRequest where
  investor_id : Nat
  stock_symbol : String
  order_type : Side
  quantity : Int
  price : ℚ
deriving DecidableEq

/-- `getOrderStatus` lookup used at the end of `placeOrder`
(matching-engine.js lines 234–248, status field only). -/
def orderStatusIn (reg : List Order) (oid : Nat) : Option OrderStatus :=
  (reg.find? (fun o => o.order_id = oid)).map (fun o => o.status)

/-- Models `Math.floor(quantity * 0.3)` (part_009 lines 123 and 135) as
`⌊3·q/10⌋`; the binary-floating-point rounding of `0.3` is not modelled —
no claim reads this volume. -/
def reducedVolume (q : Int) : Int := Int.fdiv (3 * q) 10

/-- `placeOrder` (part_009 lines 44–173): reject when the market is not
open or pre-trade validation fails (no state change, no events); otherwise
persist the order row, run the matching engine, issue the book-pressure
price update when nothing executed, settle every execution in order, and
answer with the post-match status.  `oid` is the generated order id and
`txIds` supplies the per-execution transaction ids. -/
def placeOrder (now oid : Nat) (txIds : Nat → Nat × Nat)
    (req : OrderRequest) (s : SrvState) :
    PlaceOrderResponse × List MarketEvent × List PriceRequest × SrvState :=
  if s.marketState ≠ MarketState.OPEN then
    (⟨none, false, "Market is not OPEN", OrderStatus.REJECTED⟩, [], [], s)
  else
    let validation := validateOrder s.investors s.portfolio req.investor_id
                        req.stock_symbol req.order_type req.quantity req.price
    if validation.valid = false then
      (⟨none, false, validation.message, OrderStatus.REJECTED⟩, [], [], s)
    else
      let order : Order :=
        ⟨oid, req.investor_id, req.stock_symbol, req.order_type, req.quantity,
         req.price, 0, OrderStatus.PENDING, now⟩
      let r := addOrder now order s.reg (s.books req.stock_symbol)
      let books' := fun sym => if sym = req.stock_symbol then r.book else s.books sym
      let events := placedEvent now order :: r.executions.flatMap executionEvents
      let pressureReqs : List PriceRequest :=
        if r.executions = [] then
          [⟨req.stock_symbol, if req.price = 0 then none else some req.price,
            reducedVolume req.quantity, decide (req.order_type = Side.BUY)⟩]
        else []
      let s1 := { s with ordersTable := s.ordersTable ++ [order],
                         reg := r.reg, books := books' }
      let step := fun (acc : SrvState × List PriceRequest × Nat) (e : Execution) =>
        let ids := txIds acc.2.2
        let r' := processExecution now ids.1 ids.2 e acc.1
        (r'.1, acc.2.1 ++ [r'.2], acc.2.2 + 1)
      let settled := r.executions.foldl step (s1, [], 0)
      let finalStatus :=
        match orderStatusIn settled.1.reg oid with
        | some st => st
        | none => OrderStatus.PENDING
      (⟨some oid, true, "Order placed successfully", finalStatus⟩,
       events, pressureReqs ++ settled.2.1, settled.1)

/-! ## Analytics engine (`analytics-engine.js`) -/

/-- Lexicographic comparison of character lists by code point. -/
def charsLe : List Char → List Char → Bool
  | [], _ => true
  | _ :: _, [] => false
  | c :: cs, d :: ds =>
    if c.toNat < d.toNat then true
    else if d.toNat < c.toNat then false
    else charsLe cs ds

/-- Byte-order comparison of two symbols: SQLite's default BINARY
collation, which on the uppercase-ASCII symbols of this system is
code-point order. -/
def symLe (a b : String) : Bool := charsLe a.data b.data

/-- One output row of `getTopTradedStocks`. -/
structure TopRow where
  stock_symbol : String
  total_volume : Int
  trade_count : Nat
  total_value : ℚ
deriving DecidableEq

/-- The aggregates of one `GROUP BY stock_symbol` group:
`SUM(quantity)`, `COUNT(*)`, `SUM(quantity * price)`. -/
def topRowFor (rows : List ATrade) (sym : String) : TopRow :=
  let ts := rows.filter (fun t => t.stock_symbol = sym)
  ⟨sym, (ts.map (fun t => t.quantity)).sum, ts.length,
   (ts.map (fun t => (t.quantity : ℚ) * t.price)).sum⟩

/-- `getTopTradedStocks` (analytics-engine.js lines 30–60): the SQL keeps
trades with `timestamp >= now − timePeriod`, groups them by symbol,
orders by `total_volume DESC` and truncates to `limit`.  SQLite's
`GROUP BY` emits the groups in ascending key order and its `ORDER BY` is
modelled as a stable sort of those rows, which fixes the (otherwise
unspecified) relative order of equal-volume symbols. -/
def getTopTradedStocks (trades : List ATrade) (now : Nat)
    (limit : Nat) (timePeriod : Nat) : List TopRow :=
  let cutoff : Int := (now : Int) - (timePeriod : Int)
  let filtered := trades.filter (fun t => cutoff ≤ (t.timestamp : Int))
  let syms := sortBy symLe ((filtered.map (fun t => t.stock_symbol)).dedup)
  let rows := syms.map (topRowFor filtered)
  (sortBy (fun a b => decide (b.total_volume ≤ a.total_volume)) rows).take limit

/-- Risk classification labels of `getInvestorPerformance`. -/
inductive RiskLevel where
  | LOW
  | MEDIUM
  | HIGH
deriving DecidableEq

/-- `averageTradeSize` (analytics-engine.js lines 261–262): mean of the
`total_amount` column over the investor's transactions, `0` when there
are none. -/
def averageTradeSize (txs : List Tx) : ℚ :=
  if 0 < txs.length then (txs.map (fun t => t.total_amount)).sum / (txs.length : ℚ)
  else 0

/-- Risk classification of `getInvestorPerformance` (analytics-engine.js
lines 179–191 and 277–283): an investor with no transactions is LOW via
the early return; otherwise HIGH when the average trade size exceeds
10000 or there are more than 50 trades, MEDIUM when it exceeds 5000 or
there are more than 20 trades, else LOW. -/
def riskLevel (txs : List Tx) : RiskLevel :=
  if txs.length = 0 then RiskLevel.LOW
  else if 10000 < averageTradeSize txs ∨ 50 < txs.length then RiskLevel.HIGH
  else if 5000 < averageTradeSize txs ∨ 20 < txs.length then RiskLevel.MEDIUM
  else RiskLevel.LOW

/-! ## Derived predicates, claim-level specifications and demo inputs -/

/-- Intended relative order of two resting bids: strictly higher price
first, ties in arrival order. -/
def bidBefore (a b : Order) : Prop :=
  b.price < a.price ∨ (a.price = b.price ∧ a.created_at ≤ b.created_at)

instance : DecidableRel bidBefore := fun a b => by
  unfold bidBefore; infer_instance

/-- Intended relative order of two resting asks: strictly lower price
first, ties in arrival order. -/
def askBefore (a b : Order) : Prop :=
  a.price < b.price ∨ (a.price = b.price ∧ a.created_at ≤ b.created_at)

instance : DecidableRel askBefore := fun a b => by
  unfold askBefore; infer_instance

/-- The C2 claim's positioning property for one book side: every market
order (price 0) stands ahead of every limit order, i.e. the market
orders form a prefix of the side. -/
def marketsFirst (side : List Order) : Bool :=
  (side.dropWhile (fun o => decide (o.price = 0))).all (fun o => decide (o.price ≠ 0))

/-- One admission step over the registry and the book of one symbol. -/
def admitGo (now : Nat) (st : List Order × MEBook) (o : Order) : List Order × MEBook :=
  let r := addOrder now o st.1 st.2
  (r.reg, r.book)

/-- Admit a sequence of orders on one symbol into an initially empty book
(`addOrder` after `addOrder`), as the market service does for consecutive
`PlaceOrder` calls. -/
def admitSeq (now : Nat) (orders : List Order) : List Order × MEBook :=
  orders.foldl (admitGo now) ([], emptyBook)

/-- The risk classification exactly as claim C8 words it
(`at least 10000` / `at least 5000` thresholds on the average trade
size). -/
def riskLevelClaimC8 (txs : List Tx) : RiskLevel :=
  if 10000 ≤ averageTradeSize txs ∨ 50 < txs.length then RiskLevel.HIGH
  else if 5000 ≤ averageTradeSize txs ∨ 20 < txs.length then RiskLevel.MEDIUM
  else RiskLevel.LOW

/-- The amended risk classification: the code compares the average trade
size with strict inequalities. -/
def riskLevelAmendedC8 (txs : List Tx) : RiskLevel :=
  if 10000 < averageTradeSize txs ∨ 50 < txs.length then RiskLevel.HIGH
  else if 5000 < averageTradeSize txs ∨ 20 < txs.length then RiskLevel.MEDIUM
  else RiskLevel.LOW

/-- A resting limit bid, arrival time 1. -/
def demoLimitBid : Order :=
  ⟨0, 100, "AAPL", Side.BUY, 10, 150, 0, OrderStatus.PENDING, 1⟩

/-- A market bid (price 0), arrival time 2. -/
def demoMarketBid : Order :=
  ⟨1, 101, "AAPL", Side.BUY, 5, 0, 0, OrderStatus.PENDING, 2⟩

/-- A resting limit ask at 151, arrival time 1. -/
def demoAsk : Order :=
  ⟨2, 102, "AAPL", Side.SELL, 10, 151, 0, OrderStatus.PENDING, 1⟩

/-- Trades for the C7 counterexample: symbols A, B and C all total
quantity 10 inside the window, with 2, 1 and 3 trades respectively. -/
def demoTradesC7 : List ATrade :=
  [⟨"A", Side.BUY, 5, 10, 1, 100⟩, ⟨"A", Side.BUY, 5, 10, 1, 100⟩,
   ⟨"B", Side.BUY, 10, 10, 1, 100⟩,
   ⟨"C", Side.BUY, 4, 10, 1, 100⟩, ⟨"C", Side.BUY, 3, 10, 1, 100⟩,
   ⟨"C", Side.BUY, 3, 10, 1, 100⟩]

/-- A single transaction whose `total_amount` is exactly 10000. -/
def demoTxC8 : Tx := ⟨1, 7, "AAPL", Side.BUY, 100, 100, 10000, 1⟩

/-- A limit ask at 149 that crosses `demoLimitBid`, arrival time 3. -/
def demoAskLow : Order :=
  ⟨3, 103, "AAPL", Side.SELL, 4, 149, 0, OrderStatus.PENDING, 3⟩

/-- A book holding only the resting limit ask at 151. -/
def demoBookC4 : MEBook := ⟨[], [demoAsk]⟩

/-- An execution pairing the market bid (id 1) with the limit ask (id 2). -/
def demoExecC5 : Execution := ⟨1, 2, "AAPL", 5, 151, 101, 102, 9⟩

/-- Market-service state whose registry holds the two orders of
`demoExecC5`. -/
def demoSrvC5 : SrvState :=
  ⟨MarketState.OPEN, fun _ => none, fun _ => none, [], [], [],
   [demoMarketBid, demoAsk], fun _ => emptyBook⟩

/-- An investor with balance 100. -/
def demoInvC6 : Investor := ⟨"Ana", "ana@example.com", 100, 0⟩

/-- Market-service state with one investor (id 7, balance 100) and no
holdings, open market, empty books. -/
def demoSrvC6 : SrvState :=
  ⟨MarketState.OPEN, fun id => if id = 7 then some demoInvC6 else none,
   fun _ => none, [], [], [], [], fun _ => emptyBook⟩

/-- BUY 10 AAPL at 150 for investor 7 — costs 1500 against balance 100. -/
def demoReqC6 : OrderRequest := ⟨7, "AAPL", Side.BUY, 10, 150⟩

/-- A portfolio table holding 10 AAPL at average price 100 for investor 7. -/
def demoPortC3 : PortfolioTable :=
  fun k => if k = (7, "AAPL") then some ⟨10, 100⟩ else none

/-- An investor with balance 0. -/
def demoInvC9 : Investor := ⟨"Max", "max@example.com", 0, 0⟩

/-- An investor table with only investor 7 (balance 0). -/
def demoInvestorsC9 : InvestorTable :=
  fun id => if id = 7 then some demoInvC9 else none

/-! ## Helper lemmas: stable ordered insertion -/

theorem mem_insertBy {α : Type} (le : α → α → Bool) (x : α) :
    ∀ (l : List α) (y : α), y ∈ insertBy le x l ↔ y = x ∨ y ∈ l
  | [], y => by simp [insertBy]
  | z :: zs, y => by
    by_cases h : le z x = true
    · simp only [insertBy, h, if_true, List.mem_cons, mem_insertBy le x zs y]
      tauto
    · simp only [insertBy, h, if_false, Bool.false_eq_true, List.mem_cons]
      try tauto

theorem insertBy_pairwise {α : Type} (le : α → α → Bool) (R : α → α → Prop) (x : α) :
    ∀ (l : List α), l.Pairwise R →
      (∀ a ∈ l, le a x = true → R a x) →
      (∀ a ∈ l, le a x = false → R x a) →
      (∀ a ∈ l, ∀ b, le a x = false → R a b → R x b) →
      (insertBy le x l).Pairwise R
  | [], _, _, _, _ => by simp [insertBy]
  | y :: ys, hp, h1, h2, h3 => by
    rcases List.pairwise_cons.mp hp with ⟨hy, hys⟩
    by_cases h : le y x = true
    · rw [insertBy, if_pos h]
      refine List.pairwise_cons.mpr ⟨?_, ?_⟩
      · intro z hz
        rcases (mem_insertBy le x ys z).mp hz with rfl | hz
        · exact h1 y (by simp) h
        · exact hy z hz
      · exact insertBy_pairwise le R x ys hys
          (fun a ha hle => h1 a (List.mem_cons_of_mem y ha) hle)
          (fun a ha hle => h2 a (List.mem_cons_of_mem y ha) hle)
          (fun a ha b hle hr => h3 a (List.mem_cons_of_mem y ha) b hle hr)
    · rw [insertBy, if_neg h]
      have hfalse : le y x = false := by
        cases hle : le y x
        · rfl
        · exact absurd hle h
      refine List.pairwise_cons.mpr ⟨?_, hp⟩
      intro z hz
      rcases List.mem_cons.mp hz with rfl | hz
      · exact h2 z (List.mem_cons_self z ys) hfalse
      · exact h3 y (List.mem_cons_self y ys) z hfalse (hy z hz)

theorem foldl_insertBy_pairwise {α : Type} (le : α → α → Bool) (R : α → α → Prop)
    (hle : ∀ a b, (le a b = true → R a b) ∧ (le a b = false → R b a))
    (htrans : ∀ a b c, R a b → R b c → R a c) :
    ∀ (l acc : List α), acc.Pairwise R →
      (l.foldl (fun acc x => insertBy le x acc) acc).Pairwise R
  | [], _, hacc => hacc
  | x :: xs, acc, hacc =>
    foldl_insertBy_pairwise le R hle htrans xs (insertBy le x acc)
      (insertBy_pairwise le R x acc hacc
        (fun a _ hl => (hle a x).1 hl)
        (fun a _ hl => (hle a x).2 hl)
        (fun a _ b hl hr => htrans x a b ((hle a x).2 hl) hr))

theorem sortBy_pairwise {α : Type} (le : α → α → Bool) (R : α → α → Prop)
    (hle : ∀ a b, (le a b = true → R a b) ∧ (le a b = false → R b a))
    (htrans : ∀ a b c, R a b → R b c → R a c) (l : List α) :
    (sortBy le l).Pairwise R :=
  foldl_insertBy_pairwise le R hle htrans l [] List.Pairwise.nil

/-! ## Helper lemmas: the matching loop -/

theorem bumpOrder_price (o : Order) (q : Int) : (bumpOrder o q).price = o.price := rfl

theorem bumpOrder_created_at (o : Order) (q : Int) :
    (bumpOrder o q).created_at = o.created_at := rfl

theorem matchLoop_nil_bids (now : Nat) (sym : String) (fuel : Nat)
    (reg asks : List Order) :
    matchLoop now sym fuel reg [] asks = ⟨[], reg, [], asks, true⟩ := by
  cases asks <;> simp [matchLoop]

theorem matchLoop_nil_asks (now : Nat) (sym : String) (fuel : Nat)
    (reg bids : List Order) :
    matchLoop now sym fuel reg bids [] = ⟨[], reg, bids, [], true⟩ := by
  cases bids <;> simp [matchLoop]

theorem matchLoop_noMatch (now : Nat) (sym : String) (fuel : Nat)
    (reg restB restA : List Order) (bid ask : Order)
    (hc : ¬ canMatch bid ask = true) :
    matchLoop now sym fuel reg (bid :: restB) (ask :: restA) =
      ⟨[], reg, bid :: restB, ask :: restA, true⟩ := by
  cases fuel <;> simp [matchLoop, hc]

theorem matchLoop_zero_match (now : Nat) (sym : String)
    (reg restB restA : List Order) (bid ask : Order)
    (hc : canMatch bid ask = true) :
    matchLoop now sym 0 reg (bid :: restB) (ask :: restA) =
      ⟨[], reg, bid :: restB, ask :: restA, false⟩ := by
  simp [matchLoop, hc]

theorem matchLoop_step (now : Nat) (sym : String) (fuel : Nat)
    (reg restB restA : List Order) (bid ask : Order)
    (hc : canMatch bid ask = true) :
    matchLoop now sym (fuel + 1) reg (bid :: restB) (ask :: restA) =
      (let q := execQty bid ask
       let r := matchLoop now sym fuel
         (updateOrderIn (updateOrderIn reg (bumpOrder bid q)) (bumpOrder ask q))
         (if bid.quantity ≤ bid.filled_quantity + q then restB
          else bumpOrder bid q :: restB)
         (if ask.quantity ≤ ask.filled_quantity + q then restA
          else bumpOrder ask q :: restA)
       ⟨⟨bid.order_id, ask.order_id, sym, q, execPrice bid ask,
         bid.investor_id, ask.investor_id, now⟩ :: r.executions,
        r.reg, r.bids, r.asks, r.completed⟩) := by
  simp [matchLoop, hc]

theorem matchLoop_completed (now : Nat) (sym : String) :
    ∀ (fuel : Nat) (reg bids asks : List Order),
      bids.length + asks.length ≤ fuel →
      (matchLoop now sym fuel reg bids asks).completed = true := by
  intro fuel
  induction fuel with
  | zero =>
    intro reg bids asks hlen
    have hb : bids = [] := by
      cases bids with
      | nil => rfl
      | cons b bs => simp [List.length] at hlen
    subst hb
    rw [matchLoop_nil_bids]
  | succ fuel ih =>
    intro reg bids asks hlen
    cases bids with
    | nil => rw [matchLoop_nil_bids]
    | cons bid restB =>
      cases asks with
      | nil => rw [matchLoop_nil_asks]
      | cons ask restA =>
        by_cases hc : canMatch bid ask = true
        · rw [matchLoop_step now sym fuel reg restB restA bid ask hc]
          have hkey : bid.quantity ≤ bid.filled_quantity + execQty bid ask ∨
              ask.quantity ≤ ask.filled_quantity + execQty bid ask := by
            unfold execQty
            rcases le_total (bid.quantity - bid.filled_quantity)
                (ask.quantity - ask.filled_quantity) with h | h
            · left; rw [min_eq_left h]; omega
            · right; rw [min_eq_right h]; omega
          show (matchLoop now sym fuel _ _ _).completed = true
          apply ih
          simp only [List.length_cons] at hlen
          split_ifs with h1 h2 h2 <;> (try simp only [List.length_cons]) <;> omega
        · rw [matchLoop_noMatch now sym (fuel + 1) reg restB restA bid ask hc]

theorem matchLoop_noCross (now : Nat) (sym : String) :
    ∀ (fuel : Nat) (reg bids asks : List Order) (bid ask : Order)
      (restB restA : List Order),
      (matchLoop now sym fuel reg bids asks).completed = true →
      (matchLoop now sym fuel reg bids asks).bids = bid :: restB →
      (matchLoop now sym fuel reg bids asks).asks = ask :: restA →
      canMatch bid ask = false := by
  intro fuel
  induction fuel with
  | zero =>
    intro reg bids asks bid ask restB restA hdone hb ha
    cases bids with
    | nil => rw [matchLoop_nil_bids] at hb; exact absurd hb (by simp)
    | cons bid0 restB0 =>
      cases asks with
      | nil => rw [matchLoop_nil_asks] at ha; exact absurd ha (by simp)
      | cons ask0 restA0 =>
        by_cases hc : canMatch bid0 ask0 = true
        · rw [matchLoop_zero_match now sym reg restB0 restA0 bid0 ask0 hc] at hdone
          exact absurd hdone (by simp)
        · rw [matchLoop_noMatch now sym 0 reg restB0 restA0 bid0 ask0 hc] at hb ha
          simp only [List.cons.injEq] at hb ha
          rw [← hb.1, ← ha.1]
          exact Bool.not_eq_true _ |>.mp hc
  | succ fuel ih =>
    intro reg bids asks bid ask restB restA hdone hb ha
    cases bids with
    | nil => rw [matchLoop_nil_bids] at hb; exact absurd hb (by simp)
    | cons bid0 restB0 =>
      cases asks with
      | nil => rw [matchLoop_nil_asks] at ha; exact absurd ha (by simp)
      | cons ask0 restA0 =>
        by_cases hc : canMatch bid0 ask0 = true
        · rw [matchLoop_step now sym fuel reg restB0 restA0 bid0 ask0 hc] at hdone hb ha
          exact ih _ _ _ bid ask restB restA hdone hb ha
        · rw [matchLoop_noMatch now sym (fuel + 1) reg restB0 restA0 bid0 ask0 hc] at hb ha
          simp only [List.cons.injEq] at hb ha
          rw [← hb.1, ← ha.1]
          exact Bool.not_eq_true _ |>.mp hc

theorem matchLoop_pairwise (now : Nat) (sym : String) :
    ∀ (fuel : Nat) (reg bids asks : List Order),
      bids.Pairwise bidBefore → asks.Pairwise askBefore →
      ((matchLoop now sym fuel reg bids asks).bids.Pairwise bidBefore ∧
       (matchLoop now sym fuel reg bids asks).asks.Pairwise askBefore) := by
  intro fuel
  induction fuel with
  | zero =>
    intro reg bids asks hb ha
    cases bids with
    | nil => rw [matchLoop_nil_bids]; exact ⟨List.Pairwise.nil, ha⟩
    | cons bid0 restB0 =>
      cases asks with
      | nil => rw [matchLoop_nil_asks]; exact ⟨hb, List.Pairwise.nil⟩
      | cons ask0 restA0 =>
        by_cases hc : canMatch bid0 ask0 = true
        · rw [matchLoop_zero_match now sym reg restB0 restA0 bid0 ask0 hc]
          exact ⟨hb, ha⟩
        · rw [matchLoop_noMatch now sym 0 reg restB0 restA0 bid0 ask0 hc]
          exact ⟨hb, ha⟩
  | succ fuel ih =>
    intro reg bids asks hb ha
    cases bids with
    | nil => rw [matchLoop_nil_bids]; exact ⟨List.Pairwise.nil, ha⟩
    | cons bid0 restB0 =>
      cases asks with
      | nil => rw [matchLoop_nil_asks]; exact ⟨hb, List.Pairwise.nil⟩
      | cons ask0 restA0 =>
        by_cases hc : canMatch bid0 ask0 = true
        · rw [matchLoop_step now sym fuel reg restB0 restA0 bid0 ask0 hc]
          rcases List.pairwise_cons.mp hb with ⟨hbhead, hbtail⟩
          rcases List.pairwise_cons.mp ha with ⟨hahead, hatail⟩
          apply ih
          · split_ifs with h1
            · exact hbtail
            · exact List.pairwise_cons.mpr ⟨fun y hy => hbhead y hy, hbtail⟩
          · split_ifs with h1
            · exact hatail
            · exact List.pairwise_cons.mpr ⟨fun y hy => hahead y hy, hatail⟩
        · rw [matchLoop_noMatch now sym (fuel + 1) reg restB0 restA0 bid0 ask0 hc]
          exact ⟨hb, ha⟩

theorem matchLoop_origin (now : Nat) (sym : String) :
    ∀ (fuel : Nat) (reg bids asks : List Order),
      (∀ y ∈ (matchLoop now sym fuel reg bids asks).bids,
        ∃ z ∈ bids, y.price = z.price ∧ y.created_at = z.created_at) ∧
      (∀ y ∈ (matchLoop now sym fuel reg bids asks).asks,
        ∃ z ∈ asks, y.price = z.price ∧ y.created_at = z.created_at) := by
  intro fuel
  induction fuel with
  | zero =>
    intro reg bids asks
    cases bids with
    | nil =>
      rw [matchLoop_nil_bids]
      exact ⟨by simp, fun y hy => ⟨y, hy, rfl, rfl⟩⟩
    | cons bid0 restB0 =>
      cases asks with
      | nil =>
        rw [matchLoop_nil_asks]
        exact ⟨fun y hy => ⟨y, hy, rfl, rfl⟩, by simp⟩
      | cons ask0 restA0 =>
        by_cases hc : canMatch bid0 ask0 = true
        · rw [matchLoop_zero_match now sym reg restB0 restA0 bid0 ask0 hc]
          exact ⟨fun y hy => ⟨y, hy, rfl, rfl⟩, fun y hy => ⟨y, hy, rfl, rfl⟩⟩
        · rw [matchLoop_noMatch now sym 0 reg restB0 restA0 bid0 ask0 hc]
          exact ⟨fun y hy => ⟨y, hy, rfl, rfl⟩, fun y hy => ⟨y, hy, rfl, rfl⟩⟩
  | succ fuel ih =>
    intro reg bids asks
    cases bids with
    | nil =>
      rw [matchLoop_nil_bids]
      exact ⟨by simp, fun y hy => ⟨y, hy, rfl, rfl⟩⟩
    | cons bid0 restB0 =>
      cases asks with
      | nil =>
        rw [matchLoop_nil_asks]
        exact ⟨fun y hy => ⟨y, hy, rfl, rfl⟩, by simp⟩
      | cons ask0 restA0 =>
        by_cases hc : canMatch bid0 ask0 = true
        · rw [matchLoop_step now sym fuel reg restB0 restA0 bid0 ask0 hc]
          constructor
          · intro y hy
            rcases (ih _ _ _).1 y hy with ⟨z, hz, hzp, hzc⟩
            by_cases h1 : bid0.quantity ≤ bid0.filled_quantity + execQty bid0 ask0
            · rw [if_pos h1] at hz
              exact ⟨z, List.mem_cons_of_mem bid0 hz, hzp, hzc⟩
            · rw [if_neg h1] at hz
              rcases List.mem_cons.mp hz with rfl | hz
              · exact ⟨bid0, List.mem_cons_self bid0 restB0,
                  by rw [hzp]; rfl, by rw [hzc]; rfl⟩
              · exact ⟨z, List.mem_cons_of_mem bid0 hz, hzp, hzc⟩
          · intro y hy
            rcases (ih _ _ _).2 y hy with ⟨z, hz, hzp, hzc⟩
            by_cases h1 : ask0.quantity ≤ ask0.filled_quantity + execQty bid0 ask0
            · rw [if_pos h1] at hz
              exact ⟨z, List.mem_cons_of_mem ask0 hz, hzp, hzc⟩
            · rw [if_neg h1] at hz
              rcases List.mem_cons.mp hz with rfl | hz
              · exact ⟨ask0, List.mem_cons_self ask0 restA0,
                  by rw [hzp]; rfl, by rw [hzc]; rfl⟩
              · exact ⟨z, List.mem_cons_of_mem ask0 hz, hzp, hzc⟩
        · rw [matchLoop_noMatch now sym (fuel + 1) reg restB0 restA0 bid0 ask0 hc]
          exact ⟨fun y hy => ⟨y, hy, rfl, rfl⟩, fun y hy => ⟨y, hy, rfl, rfl⟩⟩

/-! ## Helper lemmas: book insertion and admission -/

theorem insertBids_inv (o : Order) (l : List Order)
    (hl : l.Pairwise bidBefore)
    (hm : ∀ y ∈ l, 0 ≤ y.price ∧ y.created_at ≤ o.created_at)
    (hop : 0 ≤ o.price) :
    (insertBy bidKeep o l).Pairwise bidBefore ∧
      ∀ y ∈ insertBy bidKeep o l,
        0 ≤ y.price ∧ (y.created_at = o.created_at ∨ ∃ z ∈ l, y.created_at = z.created_at) := by
  constructor
  · refine insertBy_pairwise bidKeep bidBefore o l hl ?_ ?_ ?_
    · intro a ha htrue
      have hle : o.price ≤ a.price := by simpa [bidKeep] using htrue
      rcases lt_or_eq_of_le hle with h | h
      · exact Or.inl h
      · exact Or.inr ⟨h.symm, (hm a ha).2⟩
    · intro a ha hfalse
      have hlt : a.price < o.price :=
        lt_of_not_le (by simpa [bidKeep] using hfalse)
      exact Or.inl hlt
    · intro a ha b hfalse hab
      have hlt : a.price < o.price :=
        lt_of_not_le (by simpa [bidKeep] using hfalse)
      have hba : b.price ≤ a.price := by
        rcases hab with h | h
        · exact le_of_lt h
        · exact le_of_eq h.1.symm
      exact Or.inl (lt_of_le_of_lt hba hlt)
  · intro y hy
    rcases (mem_insertBy bidKeep o l y).mp hy with rfl | hy
    · exact ⟨hop, Or.inl rfl⟩
    · exact ⟨(hm y hy).1, Or.inr ⟨y, hy, rfl⟩⟩

theorem insertAsks_inv (o : Order) (l : List Order)
    (hl : l.Pairwise askBefore)
    (hm : ∀ y ∈ l, 0 ≤ y.price ∧ y.created_at ≤ o.created_at)
    (hop : 0 ≤ o.price) :
    (insertBy askKeep o l).Pairwise askBefore ∧
      ∀ y ∈ insertBy askKeep o l,
        0 ≤ y.price ∧ (y.created_at = o.created_at ∨ ∃ z ∈ l, y.created_at = z.created_at) := by
  constructor
  · refine insertBy_pairwise askKeep askBefore o l hl ?_ ?_ ?_
    · intro a ha htrue
      have hle : a.price ≤ o.price := by simpa [askKeep] using htrue
      rcases lt_or_eq_of_le hle with h | h
      · exact Or.inl h
      · exact Or.inr ⟨h, (hm a ha).2⟩
    · intro a ha hfalse
      have hlt : o.price < a.price :=
        lt_of_not_le (by simpa [askKeep] using hfalse)
      exact Or.inl hlt
    · intro a ha b hfalse hab
      have hlt : o.price < a.price :=
        lt_of_not_le (by simpa [askKeep] using hfalse)
      have hba : a.price ≤ b.price := by
        rcases hab with h | h
        · exact le_of_lt h
        · exact le_of_eq h.1
      exact Or.inl (lt_of_lt_of_le hlt hba)
  · intro y hy
    rcases (mem_insertBy askKeep o l y).mp hy with rfl | hy
    · exact ⟨hop, Or.inl rfl⟩
    · exact ⟨(hm y hy).1, Or.inr ⟨y, hy, rfl⟩⟩

theorem addOrder_inv (now : Nat) (o : Order) (reg : List Order) (bk : MEBook)
    (hb : bk.bids.Pairwise bidBefore) (ha : bk.asks.Pairwise askBefore)
    (hbm : ∀ y ∈ bk.bids, 0 ≤ y.price ∧ y.created_at ≤ o.created_at)
    (ham : ∀ y ∈ bk.asks, 0 ≤ y.price ∧ y.created_at ≤ o.created_at)
    (hop : 0 ≤ o.price) :
    ((addOrder now o reg bk).book.bids.Pairwise bidBefore ∧
     (addOrder now o reg bk).book.asks.Pairwise askBefore) ∧
    (∀ y ∈ (addOrder now o reg bk).book.bids,
       0 ≤ y.price ∧ (y.created_at = o.created_at ∨ ∃ z ∈ bk.bids, y.created_at = z.created_at)) ∧
    (∀ y ∈ (addOrder now o reg bk).book.asks,
       0 ≤ y.price ∧ (y.created_at = o.created_at ∨ ∃ z ∈ bk.asks, y.created_at = z.created_at)) := by
  have hbook : ∀ (B A : List Order),
      insertIntoBook o bk = ⟨B, A⟩ →
      B.Pairwise bidBefore → A.Pairwise askBefore →
      (∀ y ∈ B, 0 ≤ y.price ∧ (y.created_at = o.created_at ∨ ∃ z ∈ bk.bids, y.created_at = z.created_at)) →
      (∀ y ∈ A, 0 ≤ y.price ∧ (y.created_at = o.created_at ∨ ∃ z ∈ bk.asks, y.created_at = z.created_at)) →
      ((addOrder now o reg bk).book.bids.Pairwise bidBefore ∧
       (addOrder now o reg bk).book.asks.Pairwise askBefore) ∧
      (∀ y ∈ (addOrder now o reg bk).book.bids,
         0 ≤ y.price ∧ (y.created_at = o.created_at ∨ ∃ z ∈ bk.bids, y.created_at = z.created_at)) ∧
      (∀ y ∈ (addOrder now o reg bk).book.asks,
         0 ≤ y.price ∧ (y.created_at = o.created_at ∨ ∃ z ∈ bk.asks, y.created_at = z.created_at)) := by
    intro B A hBA hBp hAp hBm hAm
    have hbids : (addOrder now o reg bk).book.bids =
        (matchLoop now o.stock_symbol (B.length + A.length) (o :: reg) B A).bids := by
      simp [addOrder, hBA]
    have hasks : (addOrder now o reg bk).book.asks =
        (matchLoop now o.stock_symbol (B.length + A.length) (o :: reg) B A).asks := by
      simp [addOrder, hBA]
    rw [hbids, hasks]
    refine ⟨matchLoop_pairwise now o.stock_symbol _ _ _ _ hBp hAp, ?_, ?_⟩
    · intro y hy
      rcases (matchLoop_origin now o.stock_symbol (B.length + A.length) (o :: reg) B A).1 y hy
        with ⟨z, hz, hzp, hzc⟩
      rcases hBm z hz with ⟨hz0, hzor⟩
      exact ⟨hzp ▸ hz0, hzc ▸ hzor⟩
    · intro y hy
      rcases (matchLoop_origin now o.stock_symbol (B.length + A.length) (o :: reg) B A).2 y hy
        with ⟨z, hz, hzp, hzc⟩
      rcases hAm z hz with ⟨hz0, hzor⟩
      exact ⟨hzp ▸ hz0, hzc ▸ hzor⟩
  cases htype : o.order_type with
  | BUY =>
    rcases insertBids_inv o bk.bids hb hbm hop with ⟨hp, hmem⟩
    refine hbook (insertBy bidKeep o bk.bids) bk.asks ?_ hp ha hmem ?_
    · simp [insertIntoBook, htype]
    · intro y hy
      rcases ham y hy with ⟨h0, _⟩
      exact ⟨h0, Or.inr ⟨y, hy, rfl⟩⟩
  | SELL =>
    rcases insertAsks_inv o bk.asks ha ham hop with ⟨hp, hmem⟩
    refine hbook bk.bids (insertBy askKeep o bk.asks) ?_ hb hp ?_ hmem
    · simp [insertIntoBook, htype]
    · intro y hy
      rcases hbm y hy with ⟨h0, _⟩
      exact ⟨h0, Or.inr ⟨y, hy, rfl⟩⟩

theorem admitFold_inv (now : Nat) :
    ∀ (orders : List Order) (reg : List Order) (bk : MEBook),
      orders.Pairwise (fun a b => a.created_at ≤ b.created_at) →
      (∀ o ∈ orders, 0 ≤ o.price) →
      bk.bids.Pairwise bidBefore → bk.asks.Pairwise askBefore →
      (∀ y ∈ bk.bids, 0 ≤ y.price ∧ ∀ o ∈ orders, y.created_at ≤ o.created_at) →
      (∀ y ∈ bk.asks, 0 ≤ y.price ∧ ∀ o ∈ orders, y.created_at ≤ o.created_at) →
      ((orders.foldl (admitGo now) (reg, bk)).2.bids.Pairwise bidBefore ∧
       (orders.foldl (admitGo now) (reg, bk)).2.asks.Pairwise askBefore) ∧
      ((∀ y ∈ (orders.foldl (admitGo now) (reg, bk)).2.bids, 0 ≤ y.price) ∧
       (∀ y ∈ (orders.foldl (admitGo now) (reg, bk)).2.asks, 0 ≤ y.price)) := by
  intro orders
  induction orders with
  | nil =>
    intro reg bk _ _ hb ha hbm ham
    exact ⟨⟨hb, ha⟩, fun y hy => (hbm y hy).1, fun y hy => (ham y hy).1⟩
  | cons o rest ih =>
    intro reg bk hmono hpos hb ha hbm ham
    rcases List.pairwise_cons.mp hmono with ⟨hofut, hrest⟩
    have hbm' : ∀ y ∈ bk.bids, 0 ≤ y.price ∧ y.created_at ≤ o.created_at :=
      fun y hy => ⟨(hbm y hy).1, (hbm y hy).2 o (List.mem_cons_self o rest)⟩
    have ham' : ∀ y ∈ bk.asks, 0 ≤ y.price ∧ y.created_at ≤ o.created_at :=
      fun y hy => ⟨(ham y hy).1, (ham y hy).2 o (List.mem_cons_self o rest)⟩
    have hop : 0 ≤ o.price := hpos o (List.mem_cons_self o rest)
    rcases addOrder_inv now o reg bk hb ha hbm' ham' hop with ⟨⟨hb2, ha2⟩, hbm2, ham2⟩
    rw [List.foldl_cons]
    apply ih
    · exact hrest
    · exact fun r hr => hpos r (List.mem_cons_of_mem o hr)
    · exact hb2
    · exact ha2
    · intro y hy
      rcases hbm2 y hy with ⟨h0, hc⟩
      refine ⟨h0, fun r hr => ?_⟩
      rcases hc with h | ⟨z, hz, h⟩
      · rw [h]; exact hofut r hr
      · rw [h]; exact (hbm z hz).2 r (List.mem_cons_of_mem o hr)
    · intro y hy
      rcases ham2 y hy with ⟨h0, hc⟩
      refine ⟨h0, fun r hr => ?_⟩
      rcases hc with h | ⟨z, hz, h⟩
      · rw [h]; exact hofut r hr
      · rw [h]; exact (ham z hz).2 r (List.mem_cons_of_mem o hr)

/-! ## Claim theorems -/

/-- C1: for every match step of `Match(symbol)` in which the top bid and
top ask cross, the execution price is the ask's limit price when the best
bid is a market order (price 0), else the bid's limit price when the best
ask is a market order, else the ask's limit price. -/
theorem execution_price_rule_C1 (now : Nat) (sym : String) (fuel : Nat)
    (reg restB restA : List Order) (bid ask : Order)
    (hcross : canMatch bid ask = true) :
    ((matchLoop now sym (fuel + 1) reg (bid :: restB) (ask :: restA)).executions.map
        (fun e => e.price)).head? =
      some (if bid.price = 0 then ask.price
            else if ask.price = 0 then bid.price
            else ask.price) := by
  rw [matchLoop_step now sym fuel reg restB restA bid ask hcross]
  simp [execPrice]

/-- Witness for C1: the limit bid at 150 crosses the limit ask at 149 and
the execution prices at the ask's 149. -/
theorem execution_price_rule_C1_witness :
    canMatch demoLimitBid demoAskLow = true ∧
    ((matchLoop 3 "AAPL" 2 [] [demoLimitBid] [demoAskLow]).executions.map
        (fun e => e.price)).head? = some 149 := by
  refine ⟨by decide, ?_⟩
  rw [execution_price_rule_C1 3 "AAPL" 1 [] [] [] demoLimitBid demoAskLow (by decide)]
  decide

/-- C10: `Match(symbol)` terminates for every book whose resting orders
all have positive remaining quantity: each iteration executes the minimum
of the two top remaining quantities, so at least one top order fills
completely and is removed, which bounds the iterations by the number of
orders in the book — fuel equal to that number is never exhausted. -/
theorem match_termination_C10 (now : Nat) (sym : String)
    (reg bids asks : List Order)
    (hb : ∀ o ∈ bids, o.filled_quantity < o.quantity)
    (ha : ∀ o ∈ asks, o.filled_quantity < o.quantity) :
    (matchLoop now sym (bids.length + asks.length) reg bids asks).completed = true :=
  matchLoop_completed now sym _ reg bids asks (le_refl _)

/-- Witness for C10: a crossing one-bid one-ask book with positive
remaining quantities finishes matching within fuel 2. -/
theorem match_termination_C10_witness :
    (∀ o ∈ [demoLimitBid], o.filled_quantity < o.quantity) ∧
    (∀ o ∈ [demoAskLow], o.filled_quantity < o.quantity) ∧
    (matchLoop 3 "AAPL" 2 [] [demoLimitBid] [demoAskLow]).completed = true := by
  refine ⟨by decide, by decide, ?_⟩
  have h := match_termination_C10 3 "AAPL" [] [demoLimitBid] [demoAskLow]
    (by decide) (by decide)
  simpa using h

/-- C4: after an `Admit(order)` call completes, whenever the top bid and
top ask of the (quiescent) book are both limit orders, the best bid price
is strictly below the best ask price. -/
theorem book_integrity_C4 (now : Nat) (o : Order) (reg : List Order) (bk : MEBook)
    (bid ask : Order) (restB restA : List Order)
    (hbids : (addOrder now o reg bk).book.bids = bid :: restB)
    (hasks : (addOrder now o reg bk).book.asks = ask :: restA)
    (hbl : bid.price ≠ 0) (hal : ask.price ≠ 0) :
    bid.price < ask.price := by
  have hbids' : (addOrder now o reg bk).book.bids =
      (matchLoop now o.stock_symbol
        ((insertIntoBook o bk).bids.length + (insertIntoBook o bk).asks.length)
        (o :: reg) (insertIntoBook o bk).bids (insertIntoBook o bk).asks).bids := by
    simp [addOrder]
  have hasks' : (addOrder now o reg bk).book.asks =
      (matchLoop now o.stock_symbol
        ((insertIntoBook o bk).bids.length + (insertIntoBook o bk).asks.length)
        (o :: reg) (insertIntoBook o bk).bids (insertIntoBook o bk).asks).asks := by
    simp [addOrder]
  have hdone := matchLoop_completed now o.stock_symbol
    ((insertIntoBook o bk).bids.length + (insertIntoBook o bk).asks.length)
    (o :: reg) (insertIntoBook o bk).bids (insertIntoBook o bk).asks (le_refl _)
  have hnc := matchLoop_noCross now o.stock_symbol
    ((insertIntoBook o bk).bids.length + (insertIntoBook o bk).asks.length)
    (o :: reg) (insertIntoBook o bk).bids (insertIntoBook o bk).asks
    bid ask restB restA hdone (hbids' ▸ hbids) (hasks' ▸ hasks)
  have hle : ¬ (ask.price ≤ bid.price) := by
    intro hco
    simp [canMatch, hco] at hnc
  exact lt_of_not_le hle

/-- Witness for C4: admitting the limit bid at 150 against the resting
limit ask at 151 leaves both limit tops with 150 < 151. -/
theorem book_integrity_C4_witness :
    (addOrder 2 demoLimitBid [] demoBookC4).book.bids = [demoLimitBid] ∧
    (addOrder 2 demoLimitBid [] demoBookC4).book.asks = [demoAsk] ∧
    demoLimitBid.price ≠ 0 ∧ demoAsk.price ≠ 0 ∧
    demoLimitBid.price < demoAsk.price := by
  refine ⟨by decide, by decide, by decide, by decide, ?_⟩
  exact book_integrity_C4 2 demoLimitBid [] demoBookC4 demoLimitBid demoAsk [] []
    (by decide) (by decide) (by decide) (by decide)

/-- Counterexample to C2 as stated: after admitting the limit bid at 150
(arrival 1) and then the market bid (price 0, arrival 2), the bids side
is `[150, 0]` — the market bid stands *behind* the limit bid, not ahead
of it, because the descending bid comparator sorts price 0 last. -/
theorem book_ordering_C2_counterexample :
    ((admitSeq 0 [demoLimitBid, demoMarketBid]).2.bids.map (fun o => o.price)
      = [150, 0]) ∧
    marketsFirst (admitSeq 0 [demoLimitBid, demoMarketBid]).2.bids = false := by
  refine ⟨by decide, by decide⟩

/-- C2 (amended): for every sequence of admitted orders with
non-decreasing arrival times and non-negative prices, the book keeps the
bids descending by price and the asks ascending by price with ties in
arrival order; a market ask (price 0) is ordered ahead of every limit
ask, while a market bid (price 0) is ordered behind every limit bid —
on the asks side the market orders form a prefix, on the bids side a
suffix. -/
theorem book_ordering_C2 (now : Nat) (orders : List Order)
    (hmono : orders.Pairwise (fun a b => a.created_at ≤ b.created_at))
    (hpos : ∀ o ∈ orders, 0 ≤ o.price) :
    ((admitSeq now orders).2.bids.Pairwise bidBefore ∧
     (admitSeq now orders).2.asks.Pairwise askBefore) ∧
    ((admitSeq now orders).2.asks.Pairwise (fun a b => b.price = 0 → a.price = 0) ∧
     (admitSeq now orders).2.bids.Pairwise (fun a b => a.price = 0 → b.price = 0)) := by
  have h := admitFold_inv now orders [] emptyBook hmono hpos
    List.Pairwise.nil List.Pairwise.nil
    (by intro y hy; simp [emptyBook] at hy) (by intro y hy; simp [emptyBook] at hy)
  rcases h with ⟨⟨hb, ha⟩, hbm, ham⟩
  rw [admitSeq] at *
  refine ⟨⟨hb, ha⟩, ?_, ?_⟩
  · refine List.Pairwise.imp_of_mem ?_ ha
    intro a b hma hmb hab hb0
    rcases hab with h | h
    · exact absurd (hb0 ▸ h) (not_lt.mpr (ham a hma))
    · exact h.1.trans hb0
  · refine List.Pairwise.imp_of_mem ?_ hb
    intro a b hma hmb hab ha0
    rcases hab with h | h
    · exact absurd (ha0 ▸ h) (not_lt.mpr (hbm b hmb))
    · exact h.1.symm.trans ha0

/-- Witness for C2 (amended): the two-bid admission sequence satisfies
both hypotheses and the resulting book enjoys the four ordering
properties. -/
theorem book_ordering_C2_witness :
    ([demoLimitBid, demoMarketBid].Pairwise (fun a b => a.created_at ≤ b.created_at)) ∧
    (∀ o ∈ [demoLimitBid, demoMarketBid], 0 ≤ o.price) ∧
    (((admitSeq 0 [demoLimitBid, demoMarketBid]).2.bids.Pairwise bidBefore ∧
      (admitSeq 0 [demoLimitBid, demoMarketBid]).2.asks.Pairwise askBefore) ∧
     ((admitSeq 0 [demoLimitBid, demoMarketBid]).2.asks.Pairwise
        (fun a b => b.price = 0 → a.price = 0) ∧
      (admitSeq 0 [demoLimitBid, demoMarketBid]).2.bids.Pairwise
        (fun a b => a.price = 0 → b.price = 0))) :=
  ⟨by decide, by decide,
   book_ordering_C2 0 [demoLimitBid, demoMarketBid] (by decide) (by decide)⟩

/-- C3: `updatePortfolio` with positive signed quantity creates the
holding at the trade price when absent and otherwise averages the price
by quantity, `avg' = (oldQty·oldAvg + qty·price)/(oldQty + qty)`; with
negative signed quantity it decrements the held quantity leaving the
average price unchanged, and deletes the holding when the quantity
reaches 0. -/
theorem apply_trade_C3 (port : PortfolioTable) (txs : List Tx)
    (i : Nat) (sym : String) (qc : Int) (p : ℚ) (tid now : Nat) :
    (0 < qc → port (i, sym) = none →
      (updatePortfolio port txs i sym qc p tid now).2.1 (i, sym) = some ⟨qc, p⟩) ∧
    (∀ h : Holding, 0 < qc → port (i, sym) = some h →
      (updatePortfolio port txs i sym qc p tid now).2.1 (i, sym) =
        some ⟨h.quantity + qc,
          ((h.quantity : ℚ) * h.average_price + (qc : ℚ) * p) /
            ((h.quantity : ℚ) + (qc : ℚ))⟩) ∧
    (∀ h : Holding, qc < 0 → port (i, sym) = some h → 0 < h.quantity + qc →
      (updatePortfolio port txs i sym qc p tid now).2.1 (i, sym) =
        some ⟨h.quantity + qc, h.average_price⟩) ∧
    (∀ h : Holding, qc < 0 → port (i, sym) = some h → h.quantity + qc = 0 →
      (updatePortfolio port txs i sym qc p tid now).2.1 (i, sym) = none) := by
  refine ⟨?_, ?_, ?_, ?_⟩
  · intro hqc hnone
    simp [updatePortfolio, hnone, if_pos hqc, portfolioSet]
  · intro h hqc hsome
    simp only [updatePortfolio, hsome, if_pos hqc]
    simp [portfolioSet]
  · intro h hqc hsome hposq
    have hq : ¬ 0 < qc := by omega
    have h1 : ¬ h.quantity + qc < 0 := by omega
    have h2 : ¬ h.quantity + qc = 0 := by omega
    simp [updatePortfolio, hsome, hq, h1, h2, portfolioSet]
  · intro h hqc hsome hzero
    have hq : ¬ 0 < qc := by omega
    have h1 : ¬ h.quantity + qc < 0 := by omega
    simp [updatePortfolio, hsome, hq, h1, hzero, portfolioSet]

/-- Witness for C3: all four branches evaluated on concrete holdings —
fresh buy creates 5 @ 120, buy 10 @ 200 onto 10 @ 100 averages to 150,
selling 4 leaves 6 @ 100, selling all 10 deletes the row. -/
theorem apply_trade_C3_witness :
    ((0:Int) < 5 ∧ demoPortC3 (8, "AAPL") = none ∧
      (updatePortfolio demoPortC3 [] 8 "AAPL" 5 120 1 2).2.1 (8, "AAPL")
        = some ⟨5, 120⟩) ∧
    ((0:Int) < 10 ∧ demoPortC3 (7, "AAPL") = some ⟨10, 100⟩ ∧
      (updatePortfolio demoPortC3 [] 7 "AAPL" 10 200 1 2).2.1 (7, "AAPL")
        = some ⟨20, 150⟩) ∧
    ((-4:Int) < 0 ∧
      (updatePortfolio demoPortC3 [] 7 "AAPL" (-4) 130 1 2).2.1 (7, "AAPL")
        = some ⟨6, 100⟩) ∧
    ((-10:Int) < 0 ∧
      (updatePortfolio demoPortC3 [] 7 "AAPL" (-10) 130 1 2).2.1 (7, "AAPL")
        = none) := by
  refine ⟨⟨by decide, by decide, ?_⟩, ⟨by decide, by decide, ?_⟩,
    ⟨by decide, ?_⟩, ⟨by decide, ?_⟩⟩
  · exact (apply_trade_C3 demoPortC3 [] 8 "AAPL" 5 120 1 2).1 (by decide) (by decide)
  · have h := (apply_trade_C3 demoPortC3 [] 7 "AAPL" 10 200 1 2).2.1 ⟨10, 100⟩
      (by decide) (by decide)
    rw [h]
    norm_num
  · have h := (apply_trade_C3 demoPortC3 [] 7 "AAPL" (-4) 130 1 2).2.2.1 ⟨10, 100⟩
      (by decide) (by decide) (by decide)
    rw [h]
    decide
  · exact (apply_trade_C3 demoPortC3 [] 7 "AAPL" (-10) 130 1 2).2.2.2 ⟨10, 100⟩
      (by decide) (by decide) (by decide)

/-- C5: for every settled execution whose two orders are found in the
registry, the price-update direction follows the aggressor rule: when
exactly one order is a market order (price 0) that order is the
aggressor; when neither is, the later-created order is; a BUY aggressor
yields `is_buy = true`, a SELL aggressor `is_buy = false`. -/
theorem aggressor_rule_C5 (now txB txS : Nat) (e : Execution) (s : SrvState)
    (bo so : Order)
    (hb : s.reg.find? (fun o => o.order_id = e.buy_order_id) = some bo)
    (hs : s.reg.find? (fun o => o.order_id = e.sell_order_id) = some so) :
    (bo.price = 0 → so.price ≠ 0 →
      (processExecution now txB txS e s).2.is_buy = true) ∧
    (so.price = 0 → bo.price ≠ 0 →
      (processExecution now txB txS e s).2.is_buy = false) ∧
    (bo.price ≠ 0 → so.price ≠ 0 →
      ((processExecution now txB txS e s).2.is_buy = true ↔
        so.created_at < bo.created_at)) := by
  have hpr : (processExecution now txB txS e s).2.is_buy = isBuyPressure bo so := by
    simp [processExecution, hb, hs]
  rw [hpr]
  refine ⟨?_, ?_, ?_⟩
  · intro h1 h2
    simp [isBuyPressure, h1, h2]
  · intro h1 h2
    simp [isBuyPressure, h1, h2]
  · intro h1 h2
    simp only [isBuyPressure, h1, h2]
    norm_num

/-- Witness for C5: settling the execution of the market bid (id 1)
against the limit ask (id 2) issues a price update with
`is_buy = true`. -/
theorem aggressor_rule_C5_witness :
    demoSrvC5.reg.find? (fun o => o.order_id = demoExecC5.buy_order_id)
      = some demoMarketBid ∧
    demoSrvC5.reg.find? (fun o => o.order_id = demoExecC5.sell_order_id)
      = some demoAsk ∧
    demoMarketBid.price = 0 ∧ demoAsk.price ≠ 0 ∧
    (processExecution 9 11 12 demoExecC5 demoSrvC5).2.is_buy = true := by
  refine ⟨by decide, by decide, by decide, by decide, ?_⟩
  exact (aggressor_rule_C5 9 11 12 demoExecC5 demoSrvC5 demoMarketBid demoAsk
    (by decide) (by decide)).1 (by decide) (by decide)

/-- C6: a `PlaceOrder` whose pre-trade validation fails returns status
`REJECTED` with the validation message, publishes no event, issues no
price update and leaves every piece of stored state unchanged. -/
theorem rejection_no_effects_C6 (now oid : Nat) (txIds : Nat → Nat × Nat)
    (req : OrderRequest) (s : SrvState)
    (hopen : s.marketState = MarketState.OPEN)
    (hinvalid : (validateOrder s.investors s.portfolio req.investor_id
      req.stock_symbol req.order_type req.quantity req.price).valid = false) :
    placeOrder now oid txIds req s =
      (⟨none, false,
        (validateOrder s.investors s.portfolio req.investor_id req.stock_symbol
          req.order_type req.quantity req.price).message,
        OrderStatus.REJECTED⟩, [], [], s) := by
  rw [placeOrder, if_neg (by simp [hopen])]
  simp [hinvalid]

/-- Witness for C6: investor 7 has balance 100 and places BUY 10 AAPL at
150; the call is rejected with the validation's message and the state is
returned untouched. -/
theorem rejection_no_effects_C6_witness :
    demoSrvC6.marketState = MarketState.OPEN ∧
    (validateOrder demoSrvC6.investors demoSrvC6.portfolio demoReqC6.investor_id
      demoReqC6.stock_symbol demoReqC6.order_type demoReqC6.quantity
      demoReqC6.price).valid = false ∧
    placeOrder 0 1 (fun _ => (0, 0)) demoReqC6 demoSrvC6 =
      (⟨none, false,
        (validateOrder demoSrvC6.investors demoSrvC6.portfolio
          demoReqC6.investor_id demoReqC6.stock_symbol demoReqC6.order_type
          demoReqC6.quantity demoReqC6.price).message,
        OrderStatus.REJECTED⟩, [], [], demoSrvC6) :=
  ⟨rfl, by norm_num [validateOrder, demoSrvC6, demoReqC6, demoInvC6],
   rejection_no_effects_C6 0 1 (fun _ => (0, 0)) demoReqC6 demoSrvC6 rfl
     (by norm_num [validateOrder, demoSrvC6, demoReqC6, demoInvC6])⟩

/-- C9: `validateOrder` on a BUY with price 0 (a market buy) computes a
required balance of 0, so every existing investor with a (per the data
model, non-negative) balance passes the check — affordability is never
enforced for market buy orders. -/
theorem market_buy_validation_C9 (investors : InvestorTable) (port : PortfolioTable)
    (id : Nat) (sym : String) (q : Int) (inv : Investor)
    (hfound : investors id = some inv) (hbal : 0 ≤ inv.balance) :
    validateOrder investors port id sym Side.BUY q 0 =
      ⟨true, "Order valid", 0, 0⟩ := by
  simp [validateOrder, hfound, not_lt.mpr hbal]

/-- Witness for C9: investor 7 has balance 0 and still validates a market
BUY of 1000 shares. -/
theorem market_buy_validation_C9_witness :
    demoInvestorsC9 7 = some demoInvC9 ∧ 0 ≤ demoInvC9.balance ∧
    validateOrder demoInvestorsC9 (fun _ => none) 7 "AAPL" Side.BUY 1000 0 =
      ⟨true, "Order valid", 0, 0⟩ :=
  ⟨by decide, by decide,
   market_buy_validation_C9 demoInvestorsC9 (fun _ => none) 7 "AAPL" 1000
     demoInvC9 (by decide) (by decide)⟩

/-- Counterexample to C7 as stated: the three symbols of `demoTradesC7`
tie at total volume 10 but come back with trade counts `[2, 1, 3]` — an
order that is monotone in neither direction, so the ranking does not
break volume ties by trade count (the SQL orders by `total_volume`
only). -/
theorem top_traded_C7_counterexample :
    ((getTopTradedStocks demoTradesC7 100 10 50).map (fun r => r.total_volume)
      = [10, 10, 10]) ∧
    ((getTopTradedStocks demoTradesC7 100 10 50).map (fun r => r.trade_count)
      = [2, 1, 3]) ∧
    ¬ ((getTopTradedStocks demoTradesC7 100 10 50).Pairwise
        (fun a b => b.trade_count ≤ a.trade_count)) ∧
    ¬ ((getTopTradedStocks demoTradesC7 100 10 50).Pairwise
        (fun a b => a.trade_count ≤ b.trade_count)) := by
  refine ⟨by decide, by decide, by decide, by decide⟩

/-- C7 (amended): `getTopTradedStocks` groups the trades with timestamp
at least `now − window` by symbol and ranks the symbols by total traded
quantity descending, returning at most `limit` rows; the trade count is
reported but not used for ranking (equal-volume symbols keep their
grouping order). -/
theorem top_traded_ranking_C7 (trades : List ATrade) (now : Nat)
    (limit timePeriod : Nat) :
    ((getTopTradedStocks trades now limit timePeriod).Pairwise
      (fun a b => b.total_volume ≤ a.total_volume)) ∧
    (getTopTradedStocks trades now limit timePeriod).length ≤ limit := by
  have hs : ∀ rows : List TopRow,
      (sortBy (fun a b => decide (b.total_volume ≤ a.total_volume)) rows).Pairwise
        (fun a b => b.total_volume ≤ a.total_volume) :=
    sortBy_pairwise (fun a b : TopRow => decide (b.total_volume ≤ a.total_volume))
      (fun a b : TopRow => b.total_volume ≤ a.total_volume)
      (fun a b => ⟨fun h => of_decide_eq_true h,
        fun h => le_of_not_le (of_decide_eq_false h)⟩)
      (fun a b c h1 h2 => le_trans h2 h1)
  constructor
  · simp only [getTopTradedStocks]
    exact List.Pairwise.sublist (List.take_sublist _ _) (hs _)
  · simp only [getTopTradedStocks]
    exact List.length_take_le _ _

/-- Counterexample to C8 as stated: one transaction of total amount
exactly 10000 makes the average trade size exactly 10000; the claim's
`at least 10000` rule classifies HIGH, but the code's strict comparison
(`averageTradeSize > 10000`) yields MEDIUM. -/
theorem risk_level_C8_counterexample :
    riskLevel [demoTxC8] = RiskLevel.MEDIUM ∧
    riskLevelClaimC8 [demoTxC8] = RiskLevel.HIGH := by
  have havg : averageTradeSize [demoTxC8] = 10000 := by
    norm_num [averageTradeSize, demoTxC8]
  constructor
  · rw [riskLevel, if_neg (by norm_num), if_neg (by rw [havg]; norm_num),
      if_pos (by rw [havg]; norm_num)]
  · rw [riskLevelClaimC8, if_pos (by rw [havg]; norm_num)]

/-- C8 (amended): `getInvestorPerformance` classifies risk as HIGH when
the average trade size exceeds 10000 or there are more than 50
transactions, MEDIUM when it exceeds 5000 or there are more than 20,
and LOW otherwise (strict comparisons on the average trade size). -/
theorem risk_level_C8 (txs : List Tx) :
    riskLevel txs = riskLevelAmendedC8 txs := by
  unfold riskLevel riskLevelAmendedC8
  by_cases h : txs.length = 0
  · have havg : averageTradeSize txs = 0 := by
      simp [averageTradeSize, h]
    rw [if_pos h, h, havg]
    norm_num
  · rw [if_neg h]

end StocksMarket
